import Mathlib

/- Shallow embedding of the node-graph execution core of the tpDcc repository
   (packages/tp-dcc-common/tp/common/nodegraph/core/node.py and
   packages/tp-dcc-common/tp/common/nodegraph/core/graph.py).

   Nodes are identified by their index in the graph's node list.  Qt signal
   emissions are modelled as an explicit list of `Emission` values produced by
   each operation, with directly connected slot handlers run synchronously, as
   Qt does on a single thread.  Python's unbounded recursion is modelled by an
   explicit fuel argument: a result of `none` means the recursion exceeded the
   given depth, so an operation that returns `none` for every fuel value never
   returns in Python. -/

/-- An input socket as used by the verification and required-input logic.
`hasEdge` models `Socket.has_edge()` and `truthy` models the Python truthiness
of `Socket.value()` (a missing or empty default value is falsy). -/
structure InputSocket where
  label : String
  hasEdge : Bool
  truthy : Bool
deriving DecidableEq

/-- An output socket. `isExec` models `data_type == datatypes.Exec`, and
`connections` holds, in connection order, the ids of the nodes owning the
sockets returned by `list_connections()`. -/
structure OutputSocket where
  isExec : Bool
  connections : List Nat
deriving DecidableEq

/-- The per-node state of `Node` in node.py: the compiled / invalid /
executing flags, the graphics tooltip text, the socket lists and the
required-inputs queue. -/
structure NodeData where
  compiled : Bool
  invalid : Bool
  executing : Bool
  tooltip : String
  inputs : List InputSocket
  outputs : List OutputSocket
  requiredInputs : List InputSocket
deriving DecidableEq

/-- State reported for a node id that is not present in the graph. -/
def defaultNodeData : NodeData :=
  { compiled := false, invalid := false, executing := false, tooltip := ""
    inputs := [], outputs := [], requiredInputs := [] }

/-- A graph is the list of its nodes; node ids are list indices. -/
structure Graph where
  nodes : List NodeData
deriving DecidableEq

/-- The node stored under an id. -/
def Graph.node (g : Graph) (a : Nat) : NodeData :=
  g.nodes.getD a defaultNodeData

/-- Replace the node stored under an id. -/
def Graph.setNode (g : Graph) (a : Nat) (d : NodeData) : Graph :=
  ⟨g.nodes.set a d⟩

/-- A Qt signal emission from `Node.Signals`. -/
inductive Emission where
  | compiledChanged (node : Nat) (value : Bool)
  | invalidChanged (node : Nat) (value : Bool)
deriving DecidableEq

/-- `Node.list_exec_outputs`: the output sockets whose data type is Exec. -/
def list_exec_outputs (n : NodeData) : List OutputSocket :=
  n.outputs.filter (fun s => s.isExec)

/-- The successors visited by the loop of `Node.exec_queue`: exec outputs with
no connection are skipped (`continue`) and for the others the node owning the
first listed connection is taken (`list_connections()[0].node`). -/
def exec_successors (g : Graph) (a : Nat) : List Nat :=
  (list_exec_outputs (g.node a)).filterMap (fun out => out.connections.head?)

mutual

/-- `Node.exec_queue`, with fuel bounding the recursion depth: the queue is the
node itself followed by the queue of each connected exec output's first
connection. `none` means the recursion exceeded the fuel. -/
def exec_queue (g : Graph) (fuel : Nat) (a : Nat) : Option (List Nat) :=
  match fuel with
  | 0 => none
  | fuel' + 1 =>
    match exec_queue_list g fuel' (exec_successors g a) with
    | none => none
    | some qs => some (a :: qs)
termination_by (fuel, 0)

/-- Concatenation of the exec queues of a list of successor nodes, mirroring
the `exec_queue.extend(...)` loop of `Node.exec_queue`. -/
def exec_queue_list (g : Graph) (fuel : Nat) (l : List Nat) : Option (List Nat) :=
  match l with
  | [] => some []
  | b :: rest =>
    match exec_queue g fuel b with
    | none => none
    | some qb =>
      match exec_queue_list g fuel rest with
      | none => none
      | some qrest => some (qb ++ qrest)
termination_by (fuel, l.length + 1)

end

/-- `Node.list_children`: the nodes at the far end of every connection of every
output socket, in order, regardless of the socket's data type. -/
def list_children (g : Graph) (a : Nat) : List Nat :=
  ((g.node a).outputs.map (fun out => out.connections)).flatten

mutual

/-- `Node.set_compiled`: a no-op when the flag is unchanged; otherwise the flag
is assigned and `compiledChanged` is emitted, whose directly connected handler
`_on_compiled_changed` runs `mark_children_compiled` synchronously. -/
def set_compiled (g : Graph) (fuel : Nat) (a : Nat) (flag : Bool) :
    Option (Graph × List Emission) :=
  if (g.node a).compiled = flag then some (g, [])
  else
    let g1 := g.setNode a { g.node a with compiled := flag }
    match mark_children_compiled g1 fuel a flag with
    | none => none
    | some (g2, es) => some (g2, Emission.compiledChanged a flag :: es)
termination_by (fuel, 2, 0)

/-- `Node.mark_children_compiled`: returns immediately when the new state is
true; otherwise walks `list_children`, calling `set_compiled` and itself on
every child. -/
def mark_children_compiled (g : Graph) (fuel : Nat) (a : Nat) (state : Bool) :
    Option (Graph × List Emission) :=
  if state then some (g, [])
  else
    match fuel with
    | 0 => none
    | fuel' + 1 => mark_children_list g fuel' (list_children g a) state
termination_by (fuel, 1, 0)

/-- The `for child_node in self.list_children()` loop of
`Node.mark_children_compiled`. -/
def mark_children_list (g : Graph) (fuel : Nat) (l : List Nat) (state : Bool) :
    Option (Graph × List Emission) :=
  match l with
  | [] => some (g, [])
  | c :: rest =>
    match set_compiled g fuel c state with
    | none => none
    | some (g1, e1) =>
      match mark_children_compiled g1 fuel c state with
      | none => none
      | some (g2, e2) =>
        match mark_children_list g2 fuel rest state with
        | none => none
        | some (g3, e3) => some (g3, e1 ++ e2 ++ e3)
termination_by (fuel, 3, l.length)

end

/-- `Node.set_invalid`: assigns the flag and emits `invalidChanged`
unconditionally; the connected handler `_on_invalid_change` only logs. -/
def set_invalid (g : Graph) (a : Nat) (flag : Bool) : Graph × List Emission :=
  (g.setNode a { g.node a with invalid := flag }, [Emission.invalidChanged a flag])

/-- Assignment to `Node._is_executing`. -/
def set_executing (g : Graph) (a : Nat) (v : Bool) : Graph :=
  g.setNode a { g.node a with executing := v }

/-- `BaseNode.append_tooltip`: appends text to the graphics tooltip. -/
def append_tooltip (g : Graph) (a : Nat) (t : String) : Graph :=
  g.setNode a { g.node a with tooltip := (g.node a).tooltip ++ t }

/-- Result of `Node._exec`: whether an exception was re-raised to the caller,
together with the final graph state and the emissions produced. -/
structure ExecResult where
  raised : Bool
  graph : Graph
  emissions : List Emission
deriving DecidableEq

/-- `Node._exec`. `execOk` abstracts whether the try-block body (`execute()`
followed by `update_affected_outputs()`) raises; `update_affected_outputs`
only recomputes output socket values, which lie outside the modelled node
state. On success the node is marked compiled and not invalid; on an exception
the tooltip is extended, the node is marked invalid and the exception is
re-raised; the `finally` clause clears `_is_executing` on both paths. -/
def exec_internal (g : Graph) (fuel : Nat) (a : Nat) (execOk : Bool) :
    Option ExecResult :=
  let g1 := set_executing g a true
  if execOk then
    match set_compiled g1 fuel a true with
    | none => none
    | some (g2, es2) =>
      let r3 := set_invalid g2 a false
      let g4 := set_executing r3.1 a false
      some { raised := false, graph := g4, emissions := es2 ++ r3.2 }
  else
    let g2 := append_tooltip g1 a "Execution error (Check script editor for details)\n"
    let r3 := set_invalid g2 a true
    let g4 := set_executing r3.1 a false
    some { raised := true, graph := g4, emissions := r3.2 }

/-- The filter of `Node.verify_inputs`: required inputs that have neither an
edge nor a truthy value. -/
def invalid_inputs (n : NodeData) : List InputSocket :=
  n.requiredInputs.filter (fun s => !s.hasEdge && !s.truthy)

/-- The tooltip text built by `Node.verify_inputs` for the invalid inputs. -/
def invalid_inputs_tooltip (l : List InputSocket) : String :=
  l.foldl (fun acc s => acc ++ ("Invalid input: " ++ s.label ++ "\n")) ""

/-- `Node.verify_inputs`: collects every required input lacking both an edge
and a truthy value; when any exist, it appends one diagnostic line per failing
input to the tooltip and returns false. -/
def verify_inputs (n : NodeData) : NodeData × Bool :=
  if (invalid_inputs n).isEmpty then (n, true)
  else ({ n with tooltip := n.tooltip ++ invalid_inputs_tooltip (invalid_inputs n) },
    false)

/-- `Node.verify`: clears the tooltip, then returns `verify_inputs`. -/
def verify (n : NodeData) : NodeData × Bool :=
  verify_inputs { n with tooltip := "" }

/-- `Node.verify_inputs` as an operation on the graph. -/
def verify_inputs_node (g : Graph) (a : Nat) : Graph × Bool :=
  let r := verify_inputs (g.node a)
  (g.setNode a r.1, r.2)

/-- `Node.verify` as an operation on the graph. -/
def verify_node (g : Graph) (a : Nat) : Graph × Bool :=
  let r := verify (g.node a)
  (g.setNode a r.1, r.2)

/-- `Node.mark_input_as_required` for a socket argument: appends the socket to
the required-inputs queue unconditionally (the string branch of the source
resolves a label to a socket first and then appends in the same way). -/
def mark_input_as_required (n : NodeData) (s : InputSocket) : NodeData :=
  { n with requiredInputs := n.requiredInputs ++ [s] }

/-- `Node.mark_inputs_as_required`: marks each socket of the list in order. -/
def mark_inputs_as_required (n : NodeData) (l : List InputSocket) : NodeData :=
  l.foldl mark_input_as_required n

/-- The `nodes` mapping of the node-graph model consulted by
`NodeGraph.node_by_id`; the models module is outside the embedded sources and
the spec describes it as a mapping from unique node-id strings to nodes. -/
structure NodeGraphModel where
  nodes : List (String × NodeData)
deriving DecidableEq

/-- `NodeGraph.node_by_id`: dictionary lookup in the model's id-mapping. -/
def node_by_id (m : NodeGraphModel) (nodeId : String) : Option NodeData :=
  m.nodes.lookup nodeId

/-- Modelled from the spec: `factory.create_node` (the factory module is not
among the embedded sources) resolves a node type tag through the registry of
node classes and instantiates the class, failing with `UnknownNodeTypeError`
when the type does not resolve to a registered node class. -/
def factory_create_node (registry : List (String × NodeData)) (nodeType : String) :
    Except String NodeData :=
  match registry.lookup nodeType with
  | some n => Except.ok n
  | none => Except.error "UnknownNodeTypeError"

/-- `NodeGraph.create_node`: its whole body is
`new_node = factory.create_node(node_type)`; the bound node is never used
again, the model's id-mapping is not written, and the function ends without a
return statement, so Python returns `None`. A factory error propagates. -/
def create_node (m : NodeGraphModel) (registry : List (String × NodeData))
    (nodeType : String) : Except String (Option NodeData × NodeGraphModel) :=
  match factory_create_node registry nodeType with
  | Except.error e => Except.error e
  | Except.ok _newNode => Except.ok (none, m)

/-- One child step: `y` is among the children of `x`. -/
def childStep (g : Graph) (x y : Nat) : Prop :=
  y ∈ list_children g x

instance (g : Graph) (x y : Nat) : Decidable (childStep g x y) := by
  unfold childStep; infer_instance

/-- Reachability along output-socket connections of any data type. -/
def Reach (g : Graph) : Nat → Nat → Prop :=
  Relation.ReflTransGen (childStep g)

/-- Structural invariant of a compiled-false cascade: every node is either
untouched or has had exactly its compiled flag cleared. -/
def CascadeInv (g g' : Graph) : Prop :=
  ∀ y, g'.node y = g.node y ∨ g'.node y = { g.node y with compiled := false }

/-- A three-node exec chain A=0, B=1, C=2, each exec output connected to the
next node's exec input. -/
def chainGraphC1 : Graph :=
  ⟨[{ defaultNodeData with outputs := [⟨true, [1]⟩] },
    { defaultNodeData with outputs := [⟨true, [2]⟩] },
    { defaultNodeData with outputs := [⟨true, []⟩] }]⟩

/-- A two-node exec cycle: node 0's exec output feeds node 1 and node 1's exec
output feeds node 0. -/
def cycleGraphC2 : Graph :=
  ⟨[{ defaultNodeData with outputs := [⟨true, [1]⟩] },
    { defaultNodeData with outputs := [⟨true, [0]⟩] }]⟩

/-- A registry with one registered node class. -/
def registryC3 : List (String × NodeData) := [("NoopNode", defaultNodeData)]

/-- A graph model with an empty id-mapping. -/
def emptyModelC3 : NodeGraphModel := ⟨[]⟩

/-- A one-node graph with all flags false. -/
def graphC4 : Graph := ⟨[defaultNodeData]⟩

/-- A chain A=0 (data edge to 1), B=1 (exec edge to 2), C=2, all compiled. -/
def graphC5 : Graph :=
  ⟨[{ defaultNodeData with compiled := true, outputs := [⟨false, [1]⟩] },
    { defaultNodeData with compiled := true, outputs := [⟨true, [2]⟩] },
    { defaultNodeData with compiled := true }]⟩

/-- The graph `graphC5` after the compiled-false cascade from node 0. -/
def graphC5' : Graph :=
  ⟨[{ defaultNodeData with outputs := [⟨false, [1]⟩] },
    { defaultNodeData with outputs := [⟨true, [2]⟩] },
    defaultNodeData]⟩

/-- The emissions of the compiled-false cascade from node 0 of `graphC5`. -/
def emissionsC5 : List Emission :=
  [Emission.compiledChanged 0 false, Emission.compiledChanged 1 false,
   Emission.compiledChanged 2 false]

/-- A one-node graph for the execution-cleanup claim. -/
def graphC6 : Graph := ⟨[defaultNodeData]⟩

/-- A required input socket with no edge and no truthy default. -/
def socketC8 : InputSocket := ⟨"value", false, false⟩

/-- A node with an empty required-inputs queue. -/
def nodeC8 : NodeData := defaultNodeData

/-- A two-node graph whose node 0 has a failing required input. -/
def graphC9 : Graph :=
  ⟨[{ defaultNodeData with requiredInputs := [⟨"x", false, false⟩] },
    defaultNodeData]⟩

/-- A two-node graph, node 0 connected to node 1, neither compiled. -/
def graphC10 : Graph :=
  ⟨[{ defaultNodeData with outputs := [⟨true, [1]⟩] },
    defaultNodeData]⟩

/-- Setting a node preserves the number of nodes. -/
theorem Graph.length_setNode (g : Graph) (a : Nat) (d : NodeData) :
    (g.setNode a d).nodes.length = g.nodes.length :=
  List.length_set g.nodes a d

/-- Setting one node leaves every other id unchanged. -/
theorem Graph.node_setNode_ne (g : Graph) (a b : Nat) (d : NodeData) (h : b ≠ a) :
    (g.setNode a d).node b = g.node b := by
  unfold Graph.node Graph.setNode
  simp [List.getD_eq_getElem?_getD, List.getElem?_set_ne (Ne.symm h)]

/-- Setting an in-range node stores the given data under its id. -/
theorem Graph.node_setNode_self (g : Graph) (a : Nat) (d : NodeData)
    (h : a < g.nodes.length) : (g.setNode a d).node a = d := by
  unfold Graph.node Graph.setNode
  simp [List.getD_eq_getElem?_getD, List.getElem?_set_self h]

/-- Setting an out-of-range id is a no-op. -/
theorem Graph.setNode_oob (g : Graph) (a : Nat) (d : NodeData)
    (h : g.nodes.length ≤ a) : g.setNode a d = g := by
  cases g with
  | mk ns => simp [Graph.setNode, List.set_eq_of_length_le h]

/-- Reading an out-of-range id gives the default node state. -/
theorem Graph.node_oob (g : Graph) (a : Nat) (h : g.nodes.length ≤ a) :
    g.node a = defaultNodeData := by
  unfold Graph.node
  simp [List.getD_eq_getElem?_getD, List.getElem?_eq_none h]

/-- Case description of reading after writing a node. -/
theorem Graph.node_setNode (g : Graph) (a b : Nat) (d : NodeData) :
    (g.setNode a d).node b =
      if b = a ∧ a < g.nodes.length then d else g.node b := by
  by_cases hb : b = a
  · subst hb
    by_cases hlen : b < g.nodes.length
    · simp [hlen, Graph.node_setNode_self _ _ _ hlen]
    · simp [hlen, Graph.setNode_oob _ _ _ (Nat.le_of_not_lt hlen)]
  · simp [hb, Graph.node_setNode_ne _ _ _ _ hb]

/-- A node whose compiled flag is set is present in the graph. -/
theorem compiled_true_lt {g : Graph} {a : Nat} (h : (g.node a).compiled = true) :
    a < g.nodes.length := by
  by_contra hlt
  rw [Graph.node_oob g a (Nat.le_of_not_lt hlt)] at h
  simp [defaultNodeData] at h

theorem cascadeInv_refl (g : Graph) : CascadeInv g g := fun _ => Or.inl rfl

theorem cascadeInv_trans {g g' g'' : Graph} (h1 : CascadeInv g g')
    (h2 : CascadeInv g' g'') : CascadeInv g g'' := by
  intro y
  rcases h2 y with h | h <;> rcases h1 y with h' | h'
  · exact Or.inl (h.trans h')
  · exact Or.inr (h.trans h')
  · rw [h, h']; exact Or.inr rfl
  · rw [h, h']; exact Or.inr rfl

/-- A cascade never touches the output sockets. -/
theorem cascadeInv_outputs {g g' : Graph} (h : CascadeInv g g') (y : Nat) :
    (g'.node y).outputs = (g.node y).outputs := by
  rcases h y with h' | h' <;> rw [h']

/-- A compiled-false cascade never sets a compiled flag. -/
theorem cascadeInv_compiled_false {g g' : Graph} (h : CascadeInv g g') {y : Nat}
    (hy : (g.node y).compiled = false) : (g'.node y).compiled = false := by
  rcases h y with h' | h' <;> rw [h']
  exact hy

/-- Children are stable under a cascade. -/
theorem cascadeInv_listChildren {g g' : Graph} (h : CascadeInv g g') (x : Nat) :
    list_children g' x = list_children g x := by
  unfold list_children
  rw [cascadeInv_outputs h]

theorem cascadeInv_childStep {g g' : Graph} (h : CascadeInv g g') {x y : Nat} :
    childStep g' x y ↔ childStep g x y := by
  unfold childStep
  rw [cascadeInv_listChildren h]

/-- Reachability is stable under a cascade. -/
theorem cascadeInv_reach {g g' : Graph} (h : CascadeInv g g') {x y : Nat} :
    Reach g' x y ↔ Reach g x y := by
  constructor <;> intro hr
  · induction hr with
    | refl => exact Relation.ReflTransGen.refl
    | tail _ h2 ih => exact ih.tail ((cascadeInv_childStep h).mp h2)
  · induction hr with
    | refl => exact Relation.ReflTransGen.refl
    | tail _ h2 ih => exact ih.tail ((cascadeInv_childStep h).mpr h2)

/-- Clearing one compiled flag satisfies the cascade invariant. -/
theorem cascadeInv_setNode_false (g : Graph) (a : Nat) :
    CascadeInv g (g.setNode a { g.node a with compiled := false }) := by
  intro y
  rw [Graph.node_setNode]
  split
  · next hcond => exact Or.inr (by rw [hcond.1])
  · exact Or.inl rfl

/-- Every run of the compiled-false cascade satisfies the cascade invariant:
it clears some compiled flags and changes nothing else. -/
theorem cascade_inv_all : ∀ fuel : Nat,
    (∀ g a g' es, set_compiled g fuel a false = some (g', es) → CascadeInv g g') ∧
    (∀ g a g' es, mark_children_compiled g fuel a false = some (g', es) →
      CascadeInv g g') ∧
    (∀ g l g' es, mark_children_list g fuel l false = some (g', es) →
      CascadeInv g g') := by
  intro fuel
  induction fuel using Nat.strong_induction_on with
  | _ n ih =>
    have hM : ∀ g a g' es, mark_children_compiled g n a false = some (g', es) →
        CascadeInv g g' := by
      intro g a g' es h
      cases n with
      | zero => simp [mark_children_compiled] at h
      | succ m =>
        have h' : mark_children_list g m (list_children g a) false = some (g', es) := by
          simpa [mark_children_compiled] using h
        exact (ih m (Nat.lt_succ_self m)).2.2 g _ g' es h'
    have hS : ∀ g a g' es, set_compiled g n a false = some (g', es) →
        CascadeInv g g' := by
      intro g a g' es h
      unfold set_compiled at h
      by_cases hc : (g.node a).compiled = false
      · rw [if_pos hc] at h
        simp only [Option.some.injEq, Prod.mk.injEq] at h
        obtain ⟨rfl, -⟩ := h
        exact cascadeInv_refl g
      · rw [if_neg hc] at h
        have h' : (match mark_children_compiled
              (g.setNode a { g.node a with compiled := false }) n a false with
            | none => none
            | some (g2, es2) => some (g2, Emission.compiledChanged a false :: es2)) =
            some (g', es) := h
        clear h
        split at h'
        · exact absurd h' (by simp)
        · next g2 es2 hmc =>
            simp only [Option.some.injEq, Prod.mk.injEq] at h'
            obtain ⟨rfl, -⟩ := h'
            exact cascadeInv_trans (cascadeInv_setNode_false g a) (hM _ _ _ _ hmc)
    have hL : ∀ l g g' es, mark_children_list g n l false = some (g', es) →
        CascadeInv g g' := by
      intro l
      induction l with
      | nil =>
        intro g g' es h
        simp only [mark_children_list, Option.some.injEq, Prod.mk.injEq] at h
        obtain ⟨rfl, -⟩ := h
        exact cascadeInv_refl g
      | cons c rest ihl =>
        intro g g' es h
        simp only [mark_children_list] at h
        split at h
        · exact absurd h (by simp)
        · next g1 e1 h1 =>
            split at h
            · exact absurd h (by simp)
            · next g2 e2 h2 =>
                split at h
                · exact absurd h (by simp)
                · next g3 e3 h3 =>
                    simp only [Option.some.injEq, Prod.mk.injEq] at h
                    obtain ⟨rfl, -⟩ := h
                    exact cascadeInv_trans (hS _ _ _ _ h1)
                      (cascadeInv_trans (hM _ _ _ _ h2) (ihl _ _ _ h3))
    exact ⟨hS, hM, fun g l => hL l g⟩

/-- When `set_compiled(False)` returns, the node itself is no longer
compiled. -/
theorem set_compiled_false_self {g : Graph} {fuel a : Nat} {g' : Graph}
    {es : List Emission} (h : set_compiled g fuel a false = some (g', es)) :
    (g'.node a).compiled = false := by
  unfold set_compiled at h
  by_cases hc : (g.node a).compiled = false
  · rw [if_pos hc] at h
    simp only [Option.some.injEq, Prod.mk.injEq] at h
    obtain ⟨rfl, -⟩ := h
    exact hc
  · rw [if_neg hc] at h
    have h' : (match mark_children_compiled
          (g.setNode a { g.node a with compiled := false }) fuel a false with
        | none => none
        | some (g2, es2) => some (g2, Emission.compiledChanged a false :: es2)) =
        some (g', es) := h
    clear h
    split at h'
    · exact absurd h' (by simp)
    · next g2 es2 hmc =>
        simp only [Option.some.injEq, Prod.mk.injEq] at h'
        obtain ⟨rfl, -⟩ := h'
        have ha : a < g.nodes.length :=
          compiled_true_lt (by simpa using Bool.not_eq_false _ ▸ hc)
        have h1 : ((g.setNode a { g.node a with compiled := false }).node a).compiled
            = false := by
          rw [Graph.node_setNode_self _ _ _ ha]
        exact cascadeInv_compiled_false ((cascade_inv_all fuel).2.1 _ _ _ _ hmc) h1

/-- `set_compiled(True)` either is a no-op or flips exactly the target node's
flag and emits once: `mark_children_compiled` returns immediately for a true
state. -/
theorem set_compiled_true_eq (g : Graph) (fuel a : Nat) :
    set_compiled g fuel a true =
      if (g.node a).compiled = true then some (g, [])
      else some (g.setNode a { g.node a with compiled := true },
        [Emission.compiledChanged a true]) := by
  unfold set_compiled
  split
  · rfl
  · simp [mark_children_compiled.eq_def]

/-- When the compiled-false cascade returns, every node reachable from the
cascade root along output connections has its compiled flag cleared. -/
theorem cascade_marks_all : ∀ fuel : Nat,
    (∀ g a g' es, set_compiled g fuel a false = some (g', es) →
      (g.node a).compiled = true → ∀ b, Reach g a b → (g'.node b).compiled = false) ∧
    (∀ g a g' es, mark_children_compiled g fuel a false = some (g', es) →
      ∀ c, c ∈ list_children g a → ∀ b, Reach g c b → (g'.node b).compiled = false) ∧
    (∀ g l g' es, mark_children_list g fuel l false = some (g', es) →
      ∀ c, c ∈ l → ∀ b, Reach g c b → (g'.node b).compiled = false) := by
  intro fuel
  induction fuel using Nat.strong_induction_on with
  | _ n ih =>
    have hM : ∀ g a g' es, mark_children_compiled g n a false = some (g', es) →
        ∀ c, c ∈ list_children g a → ∀ b, Reach g c b →
        (g'.node b).compiled = false := by
      intro g a g' es h c hc b hr
      cases n with
      | zero => simp [mark_children_compiled] at h
      | succ m =>
        have h' : mark_children_list g m (list_children g a) false = some (g', es) := by
          simpa [mark_children_compiled] using h
        exact (ih m (Nat.lt_succ_self m)).2.2 g _ g' es h' c hc b hr
    have hL : ∀ l g g' es, mark_children_list g n l false = some (g', es) →
        ∀ c, c ∈ l → ∀ b, Reach g c b → (g'.node b).compiled = false := by
      intro l
      induction l with
      | nil =>
        intro g g' es h c hc
        exact absurd hc (List.not_mem_nil c)
      | cons c0 rest ihl =>
        intro g g' es h c hc b hr
        simp only [mark_children_list] at h
        split at h
        · exact absurd h (by simp)
        · next g1 e1 h1 =>
          split at h
          · exact absurd h (by simp)
          · next g2 e2 h2 =>
            split at h
            · exact absurd h (by simp)
            · next g3 e3 h3 =>
              simp only [Option.some.injEq, Prod.mk.injEq] at h
              obtain ⟨rfl, -⟩ := h
              have invA : CascadeInv g g1 := (cascade_inv_all n).1 _ _ _ _ h1
              have invB : CascadeInv g1 g2 := (cascade_inv_all n).2.1 _ _ _ _ h2
              have invC : CascadeInv g2 g3 := (cascade_inv_all n).2.2 _ _ _ _ h3
              rcases List.mem_cons.mp hc with rfl | hrest
              · rcases hr.cases_head with rfl | ⟨d, hd, hdb⟩
                · exact cascadeInv_compiled_false invC
                    (cascadeInv_compiled_false invB (set_compiled_false_self h1))
                · have hd1 : d ∈ list_children g1 c := by
                    rw [cascadeInv_listChildren invA]; exact hd
                  have hdb1 : Reach g1 d b := (cascadeInv_reach invA).mpr hdb
                  exact cascadeInv_compiled_false invC (hM g1 c g2 e2 h2 d hd1 b hdb1)
              · have hr2 : Reach g2 c b :=
                  (cascadeInv_reach (cascadeInv_trans invA invB)).mpr hr
                exact ihl g2 g3 e3 h3 c hrest b hr2
    have hS : ∀ g a g' es, set_compiled g n a false = some (g', es) →
        (g.node a).compiled = true → ∀ b, Reach g a b →
        (g'.node b).compiled = false := by
      intro g a g' es h hcomp b hr
      unfold set_compiled at h
      rw [if_neg (by simp [hcomp])] at h
      have h' : (match mark_children_compiled
            (g.setNode a { g.node a with compiled := false }) n a false with
          | none => none
          | some (g2, es2) => some (g2, Emission.compiledChanged a false :: es2)) =
          some (g', es) := h
      clear h
      split at h'
      · exact absurd h' (by simp)
      · next g2 es2 hmc =>
        simp only [Option.some.injEq, Prod.mk.injEq] at h'
        obtain ⟨rfl, -⟩ := h'
        have invB : CascadeInv (g.setNode a { g.node a with compiled := false }) g2 :=
          (cascade_inv_all n).2.1 _ _ _ _ hmc
        have inv1 : CascadeInv g (g.setNode a { g.node a with compiled := false }) :=
          cascadeInv_setNode_false g a
        rcases hr.cases_head with rfl | ⟨d, hd, hdb⟩
        · have ha : a < g.nodes.length := compiled_true_lt hcomp
          refine cascadeInv_compiled_false invB ?_
          rw [Graph.node_setNode_self _ _ _ ha]
        · have hd1 : d ∈ list_children
              (g.setNode a { g.node a with compiled := false }) a := by
            rw [cascadeInv_listChildren inv1]; exact hd
          have hdb1 : Reach (g.setNode a { g.node a with compiled := false }) d b :=
            (cascadeInv_reach inv1).mpr hdb
          exact hM _ a g2 es2 hmc d hd1 b hdb1
    exact ⟨hS, hM, fun g l => hL l g⟩

/-- Folding string appends from an initial string prepends it to the joined
pieces. -/
theorem string_foldl_eq : ∀ (xs : List String) (x : String),
    xs.foldl (fun a b => a ++ b) x = x ++ String.join xs := by
  intro xs
  induction xs with
  | nil =>
    intro x
    simp [String.join]
  | cons y ys ih =>
    intro x
    have hj : String.join (y :: ys) = y ++ String.join ys := by
      show (y :: ys).foldl (fun a b => a ++ b) "" = y ++ String.join ys
      simp only [List.foldl_cons]
      rw [ih]
      simp
    simp only [List.foldl_cons]
    rw [ih, hj, String.append_assoc]

/-- Accumulating mapped strings is joining the mapped list. -/
theorem string_foldl_append {α : Type} (f : α → String) :
    ∀ (l : List α) (init : String),
      l.foldl (fun acc s => acc ++ f s) init = init ++ String.join (l.map f) := by
  intro l
  induction l with
  | nil =>
    intro init
    simp [String.join]
  | cons a t ih =>
    intro init
    have hj : String.join (f a :: t.map f) = f a ++ String.join (t.map f) := by
      show (f a :: t.map f).foldl (fun a b => a ++ b) "" = f a ++ String.join (t.map f)
      simp only [List.foldl_cons]
      rw [string_foldl_eq]
      simp
    simp only [List.foldl_cons, List.map_cons]
    rw [ih, hj, String.append_assoc]

/-- The diagnostic text is the join of one line per invalid input. -/
theorem invalid_inputs_tooltip_eq (l : List InputSocket) :
    invalid_inputs_tooltip l =
      String.join (l.map (fun s => "Invalid input: " ++ s.label ++ "\n")) := by
  unfold invalid_inputs_tooltip
  rw [string_foldl_append]
  simp

/-- Membership in the collected invalid inputs. -/
theorem invalid_inputs_mem (n : NodeData) (s : InputSocket) :
    s ∈ invalid_inputs n ↔
      s ∈ n.requiredInputs ∧ s.hasEdge = false ∧ s.truthy = false := by
  unfold invalid_inputs
  simp [List.mem_filter, and_assoc]

/-- Tooltip written by `verify_inputs`. -/
theorem verify_inputs_tooltip (n : NodeData) :
    (verify_inputs n).1.tooltip = n.tooltip ++ String.join ((invalid_inputs n).map
      (fun s => "Invalid input: " ++ s.label ++ "\n")) := by
  unfold verify_inputs
  split
  · next h =>
    have h0 : invalid_inputs n = [] := List.isEmpty_iff.mp h
    simp [h0, String.join]
  · simp [invalid_inputs_tooltip_eq]

/-- `verify_inputs` returns false exactly when some invalid input was
collected. -/
theorem verify_inputs_snd_false_iff (n : NodeData) :
    (verify_inputs n).2 = false ↔ invalid_inputs n ≠ [] := by
  unfold verify_inputs
  split
  · next h =>
    have h0 : invalid_inputs n = [] := List.isEmpty_iff.mp h
    simp [h0]
  · next h =>
    have h0 : invalid_inputs n ≠ [] := by
      intro hnil
      exact h (List.isEmpty_iff.mpr hnil)
    simp [h0]

/-- All fields of a node except the tooltip survive `verify_inputs`. -/
theorem verify_inputs_shape (n : NodeData) :
    ∃ t, (verify_inputs n).1 = { n with tooltip := t } := by
  unfold verify_inputs
  split
  · exact ⟨n.tooltip, rfl⟩
  · exact ⟨_, rfl⟩

/-- All fields of a node except the tooltip survive `verify`. -/
theorem verify_shape (n : NodeData) :
    ∃ t, (verify n).1 = { n with tooltip := t } := by
  obtain ⟨t, ht⟩ := verify_inputs_shape { n with tooltip := "" }
  refine ⟨t, ?_⟩
  unfold verify
  rw [ht]

/-- The loop concatenation of successor queues agrees with monadic mapping
plus flattening. -/
theorem exec_queue_list_eq_mapM (g : Graph) (n : Nat) :
    ∀ l : List Nat, exec_queue_list g n l =
      (l.mapM (exec_queue g n)).map List.flatten := by
  intro l
  induction l with
  | nil =>
    simp only [exec_queue_list]
    rfl
  | cons b rest ih =>
    simp only [exec_queue_list, List.mapM_cons]
    rw [ih]
    cases hq : exec_queue g n b with
    | none => rfl
    | some qb =>
      cases hrest : rest.mapM (exec_queue g n) with
      | none => rfl
      | some qs => rfl

/-- C1: on an exec chain a→b→c, `exec_queue` returns the flat sequence
[a, b, c]; in general the queue is the node itself followed, for each of its
exec output sockets that has a connection, by the queue of the node owning
that socket's first listed connection. -/
theorem exec_queue_spec_C1 (g : Graph) (a b c fuel : Nat)
    (ha : exec_successors g a = [b]) (hb : exec_successors g b = [c])
    (hc : exec_successors g c = []) :
    exec_queue g (fuel + 3) a = some [a, b, c] ∧
    ∀ x n, exec_queue g (n + 1) x =
      ((exec_successors g x).mapM (exec_queue g n)).map
        (fun qs => x :: qs.flatten) := by
  have hgen : ∀ x n, exec_queue g (n + 1) x =
      ((exec_successors g x).mapM (exec_queue g n)).map
        (fun qs => x :: qs.flatten) := by
    intro x n
    simp only [exec_queue]
    rw [exec_queue_list_eq_mapM]
    cases hm : (exec_successors g x).mapM (exec_queue g n) with
    | none => rfl
    | some qs => rfl
  refine ⟨?_, hgen⟩
  have h3 : exec_queue g (fuel + 1) c = some [c] := by
    rw [hgen c fuel, hc]
    rfl
  have h2 : exec_queue g (fuel + 1 + 1) b = some [b, c] := by
    rw [hgen b (fuel + 1), hb, List.mapM_cons, h3]
    rfl
  have h1 : exec_queue g (fuel + 1 + 1 + 1) a = some [a, b, c] := by
    rw [hgen a (fuel + 1 + 1), ha, List.mapM_cons, h2]
    rfl
  exact h1

/-- C1 witness: the three-node chain graph yields the queue [0, 1, 2]. -/
theorem exec_queue_spec_C1_witness :
    exec_queue chainGraphC1 3 0 = some [0, 1, 2] :=
  (exec_queue_spec_C1 chainGraphC1 0 1 2 0 (by decide) (by decide) (by decide)).1

/-- C2: on the two-node exec cycle, calling `exec_queue` on node 0 exhausts
every finite recursion depth; the source recursion never terminates, against
the claim that it returns a finite queue on every graph. -/
theorem exec_queue_cycle_diverges_C2 (fuel : Nat) :
    exec_queue cycleGraphC2 fuel 0 = none ∧
    exec_queue cycleGraphC2 fuel 1 = none := by
  induction fuel with
  | zero => exact ⟨by simp [exec_queue], by simp [exec_queue]⟩
  | succ n ih =>
    have h0 : exec_successors cycleGraphC2 0 = [1] := by decide
    have h1 : exec_successors cycleGraphC2 1 = [0] := by decide
    constructor
    · simp only [exec_queue, h0]
      simp only [exec_queue_list, ih.2]
    · simp only [exec_queue, h1]
      simp only [exec_queue_list, ih.1]

/-- C3: `create_node` on a registered type returns None rather than the
created node and leaves the id-mapping unchanged, so a subsequent
`node_by_id` finds nothing; an unregistered type fails with
UnknownNodeTypeError. -/
theorem create_node_returns_none_C3 :
    create_node emptyModelC3 registryC3 "NoopNode" =
      Except.ok (none, emptyModelC3) ∧
    node_by_id emptyModelC3 "NoopNode" = none ∧
    create_node emptyModelC3 registryC3 "MissingNode" =
      Except.error "UnknownNodeTypeError" :=
  ⟨rfl, rfl, rfl⟩

/-- C4 counterexample: node 0's invalid flag is already false, yet
`set_invalid(False)` still emits an invalidChanged notification. -/
theorem set_invalid_unchanged_still_emits_C4 :
    (graphC4.node 0).invalid = false ∧ (set_invalid graphC4 0 false).2 ≠ [] := by
  decide

/-- C4 (amended): `set_compiled` is an idempotent setter: when the flag is
unchanged it is a no-op that emits nothing; `set_invalid`, however, always
assigns the flag and always emits `invalidChanged`, even when the stored
value is unchanged. -/
theorem set_compiled_idempotent_C4 (g : Graph) (fuel a : Nat) (flag : Bool)
    (h : (g.node a).compiled = flag) :
    set_compiled g fuel a flag = some (g, []) ∧
    set_invalid g a flag =
      (g.setNode a { g.node a with invalid := flag },
        [Emission.invalidChanged a flag]) := by
  refine ⟨?_, rfl⟩
  unfold set_compiled
  rw [if_pos h]

/-- C4 witness at a concrete one-node graph. -/
theorem set_compiled_idempotent_C4_witness :
    set_compiled graphC4 1 0 false = some (graphC4, []) ∧
    set_invalid graphC4 0 false =
      (graphC4.setNode 0 { graphC4.node 0 with invalid := false },
        [Emission.invalidChanged 0 false]) :=
  set_compiled_idempotent_C4 graphC4 1 0 false (by decide)

/-- C5: clearing the compiled flag of a compiled node clears the compiled
flag of every node reachable from it along output-socket connections,
whatever the edge data type. -/
theorem set_compiled_false_cascades_C5 (g : Graph) (fuel a : Nat) (g' : Graph)
    (es : List Emission) (h : set_compiled g fuel a false = some (g', es))
    (ha : (g.node a).compiled = true) (b : Nat) (hb : Reach g a b) :
    (g'.node b).compiled = false :=
  (cascade_marks_all fuel).1 g a g' es h ha b hb

/-- C5 witness: on the compiled chain 0→1→2 (data edge then exec edge) the
cascade from node 0 reaches node 2. -/
theorem set_compiled_false_cascades_C5_witness :
    (graphC5'.node 2).compiled = false :=
  set_compiled_false_cascades_C5 graphC5 5 0 graphC5' emissionsC5
    (by simp [set_compiled, mark_children_compiled, mark_children_list, graphC5,
      graphC5', emissionsC5, Graph.node, Graph.setNode, list_children,
      defaultNodeData, list_exec_outputs])
    (by decide) 2
    (Relation.ReflTransGen.head (show childStep graphC5 0 1 by decide)
      (Relation.ReflTransGen.head (show childStep graphC5 1 2 by decide)
        Relation.ReflTransGen.refl))

/-- C6: `_exec` clears the executing flag on every exit path; when the
execution body raises, the node is additionally marked invalid and the
exception is re-raised to the caller. -/
theorem exec_cleanup_C6 (g : Graph) (fuel a : Nat) (ha : a < g.nodes.length) :
    (∃ r, exec_internal g fuel a false = some r ∧ r.raised = true ∧
      (r.graph.node a).executing = false ∧ (r.graph.node a).invalid = true) ∧
    (∀ r, exec_internal g fuel a true = some r →
      r.raised = false ∧ (r.graph.node a).executing = false) := by
  constructor
  · refine ⟨_, rfl, rfl, ?_, ?_⟩ <;>
      simp [set_executing, set_invalid, append_tooltip, Graph.node_setNode,
        Graph.length_setNode, ha]
  · intro r hr
    simp only [exec_internal] at hr
    rw [if_pos trivial] at hr
    rw [set_compiled_true_eq] at hr
    by_cases hcomp : ((set_executing g a true).node a).compiled = true
    · rw [if_pos hcomp] at hr
      simp only [Option.some.injEq] at hr
      subst hr
      refine ⟨rfl, ?_⟩
      simp [set_executing, set_invalid, Graph.node_setNode,
        Graph.length_setNode, ha]
    · rw [if_neg hcomp] at hr
      simp only [Option.some.injEq] at hr
      subst hr
      refine ⟨rfl, ?_⟩
      simp [set_executing, set_invalid, Graph.node_setNode,
        Graph.length_setNode, ha]

/-- C6 witness at a concrete one-node graph. -/
theorem exec_cleanup_C6_witness :
    (∃ r, exec_internal graphC6 1 0 false = some r ∧ r.raised = true ∧
      (r.graph.node 0).executing = false ∧ (r.graph.node 0).invalid = true) ∧
    (∀ r, exec_internal graphC6 1 0 true = some r →
      r.raised = false ∧ (r.graph.node 0).executing = false) :=
  exec_cleanup_C6 graphC6 1 0 (by decide)

/-- C7: `verify_inputs` returns false exactly when some required input lacks
both an edge and a non-empty value; its diagnostic lists every failing
required input, one line each; `verify` clears the prior tooltip and returns
the `verify_inputs` result. -/
theorem verify_inputs_spec_C7 (n : NodeData) :
    ((verify_inputs n).2 = false ↔
      ∃ s ∈ n.requiredInputs, s.hasEdge = false ∧ s.truthy = false) ∧
    (∀ s, s ∈ invalid_inputs n ↔
      s ∈ n.requiredInputs ∧ s.hasEdge = false ∧ s.truthy = false) ∧
    (verify_inputs n).1.tooltip = n.tooltip ++
      String.join ((invalid_inputs n).map
        (fun s => "Invalid input: " ++ s.label ++ "\n")) ∧
    (verify n).2 = (verify_inputs n).2 ∧
    (verify n).1.tooltip =
      String.join ((invalid_inputs n).map
        (fun s => "Invalid input: " ++ s.label ++ "\n")) := by
  have hreq : invalid_inputs { n with tooltip := "" } = invalid_inputs n := rfl
  refine ⟨?_, invalid_inputs_mem n, verify_inputs_tooltip n, ?_, ?_⟩
  · rw [verify_inputs_snd_false_iff]
    constructor
    · intro hne
      obtain ⟨s, hs⟩ := List.exists_mem_of_ne_nil _ hne
      obtain ⟨h1, h2, h3⟩ := (invalid_inputs_mem n s).mp hs
      exact ⟨s, h1, h2, h3⟩
    · rintro ⟨s, h1, h2, h3⟩
      exact List.ne_nil_of_mem ((invalid_inputs_mem n s).mpr ⟨h1, h2, h3⟩)
  · simp only [verify, verify_inputs, hreq]
    split <;> rename_i h <;> simp [h]
  · unfold verify
    rw [verify_inputs_tooltip, hreq]
    simp

/-- C8 counterexample: marking the same input socket twice makes it appear
twice in the required-inputs queue, which is therefore not duplicate-free. -/
theorem required_inputs_duplicates_C8 :
    ¬ ((mark_inputs_as_required nodeC8 [socketC8, socketC8]).requiredInputs.count
        socketC8 ≤ 1) := by
  decide

/-- C8 (amended): every mark call appends to the required-inputs queue, so a
sequence of calls extends the queue by the marked sockets in order; a socket
marked again gains another occurrence and duplicates are never filtered. -/
theorem mark_inputs_as_required_appends_C8 (n : NodeData) (l : List InputSocket)
    (s : InputSocket) :
    (mark_inputs_as_required n l).requiredInputs = n.requiredInputs ++ l ∧
    (mark_inputs_as_required n l).requiredInputs.count s =
      n.requiredInputs.count s + l.count s := by
  have key : ∀ (l : List InputSocket) (n : NodeData),
      (mark_inputs_as_required n l).requiredInputs = n.requiredInputs ++ l := by
    intro l
    induction l with
    | nil =>
      intro n
      simp [mark_inputs_as_required]
    | cons a t ih =>
      intro n
      have hstep : mark_inputs_as_required n (a :: t) =
          mark_inputs_as_required (mark_input_as_required n a) t := rfl
      rw [hstep, ih]
      simp [mark_input_as_required]
  refine ⟨key l n, ?_⟩
  rw [key l n, List.count_append]

/-- C9: `verify` and `verify_inputs` leave every other node untouched and
change nothing of the verified node except its tooltip: the compiled, invalid
and executing flags, the socket lists and the required-inputs queue are all
preserved. -/
theorem verify_frame_C9 (g : Graph) (a b : Nat) (hb : b ≠ a) :
    (verify_node g a).1.node b = g.node b ∧
    (verify_inputs_node g a).1.node b = g.node b ∧
    ((verify_node g a).1.node a).compiled = (g.node a).compiled ∧
    ((verify_node g a).1.node a).invalid = (g.node a).invalid ∧
    ((verify_node g a).1.node a).executing = (g.node a).executing ∧
    ((verify_node g a).1.node a).inputs = (g.node a).inputs ∧
    ((verify_node g a).1.node a).outputs = (g.node a).outputs ∧
    ((verify_node g a).1.node a).requiredInputs = (g.node a).requiredInputs ∧
    ((verify_inputs_node g a).1.node a).compiled = (g.node a).compiled ∧
    ((verify_inputs_node g a).1.node a).invalid = (g.node a).invalid ∧
    ((verify_inputs_node g a).1.node a).executing = (g.node a).executing ∧
    ((verify_inputs_node g a).1.node a).inputs = (g.node a).inputs ∧
    ((verify_inputs_node g a).1.node a).outputs = (g.node a).outputs ∧
    ((verify_inputs_node g a).1.node a).requiredInputs =
      (g.node a).requiredInputs := by
  obtain ⟨t1, ht1⟩ := verify_shape (g.node a)
  obtain ⟨t2, ht2⟩ := verify_inputs_shape (g.node a)
  have hvn : (verify_node g a).1 = g.setNode a { g.node a with tooltip := t1 } := by
    show g.setNode a (verify (g.node a)).1 =
      g.setNode a { g.node a with tooltip := t1 }
    rw [ht1]
  have hvi : (verify_inputs_node g a).1 =
      g.setNode a { g.node a with tooltip := t2 } := by
    show g.setNode a (verify_inputs (g.node a)).1 =
      g.setNode a { g.node a with tooltip := t2 }
    rw [ht2]
  have hn1 : ∀ t : String, ∃ t',
      (g.setNode a { g.node a with tooltip := t }).node a =
        { g.node a with tooltip := t' } := by
    intro t
    by_cases h : a < g.nodes.length
    · exact ⟨t, Graph.node_setNode_self _ _ _ h⟩
    · rw [Graph.setNode_oob _ _ _ (Nat.le_of_not_lt h)]
      exact ⟨(g.node a).tooltip, rfl⟩
  obtain ⟨u1, hu1⟩ := hn1 t1
  obtain ⟨u2, hu2⟩ := hn1 t2
  refine ⟨by rw [hvn]; exact Graph.node_setNode_ne _ _ _ _ hb,
    by rw [hvi]; exact Graph.node_setNode_ne _ _ _ _ hb,
    by rw [hvn, hu1], by rw [hvn, hu1], by rw [hvn, hu1],
    by rw [hvn, hu1], by rw [hvn, hu1], by rw [hvn, hu1],
    by rw [hvi, hu2], by rw [hvi, hu2], by rw [hvi, hu2],
    by rw [hvi, hu2], by rw [hvi, hu2], by rw [hvi, hu2]⟩

/-- C9 witness: verifying node 0 of the two-node graph leaves node 1 as it
was. -/
theorem verify_frame_C9_witness :
    (verify_node graphC9 0).1.node 1 = graphC9.node 1 :=
  (verify_frame_C9 graphC9 0 1 (by decide)).1

/-- C10: `set_compiled(True)` never propagates: it always returns, and every
node other than the target keeps its whole state, because the child-marking
cascade returns immediately when the new state is true. -/
theorem set_compiled_true_frame_C10 (g : Graph) (fuel a b : Nat) (hb : b ≠ a) :
    ∃ g' es, set_compiled g fuel a true = some (g', es) ∧
      g'.node b = g.node b ∧ (g'.node b).compiled = (g.node b).compiled := by
  rw [set_compiled_true_eq]
  split
  · exact ⟨g, [], rfl, rfl, rfl⟩
  · exact ⟨_, _, rfl, Graph.node_setNode_ne _ _ _ _ hb,
      by rw [Graph.node_setNode_ne _ _ _ _ hb]⟩

/-- C10 witness: compiling node 0 of the two-node graph leaves node 1 as it
was. -/
theorem set_compiled_true_frame_C10_witness :
    ∃ g' es, set_compiled graphC10 1 0 true = some (g', es) ∧
      g'.node 1 = graphC10.node 1 ∧
      (g'.node 1).compiled = (graphC10.node 1).compiled :=
  set_compiled_true_frame_C10 graphC10 1 0 1 (by decide)
